import Mathlib

/-!
Shallow embedding of the go-rlp codec (defiweb/go-rlp, rlp.go and the raw
view / typed list files) together with proofs of the specification claims.

Bytes are modelled as `Nat` values (each `< 256` for real byte strings);
buffers are `List Nat`.  Go's fixed-width unsigned integers are modelled as
`Nat` with explicit `% 256` where Go performs a `byte(...)` / `uint8(...)`
conversion.  Fallible Go functions returning `(value, error)` become
`Except Err value`.  Go combines big-endian bytes with shifts and bitwise
or; since the combined pieces occupy disjoint bit ranges for byte values,
this is written here as multiplication by powers of 256 plus addition,
which is exact for byte-valued data.
-/

namespace GoRLP

/-- The three error values of the package: ErrUnsupportedType,
ErrUnexpectedEndOfData and ErrTooLarge. -/
inductive Err where
  | unsupportedType
  | unexpectedEndOfData
  | tooLarge
deriving DecidableEq, Repr

def stringOffset : Nat := 0x80
def listOffset : Nat := 0xc0
def singleByteMax : Nat := 0x7f
def shortStringMax : Nat := 0xb7
def longStringMax : Nat := 0xbf
def shortListMax : Nat := 0xf7

/-- Go's `math.MaxInt` on a 64-bit platform. -/
def maxInt : Nat := 2 ^ 63 - 1

/-- Model of `writeInt` (rlp.go): writes an integer in big-endian order and returns
the number of bytes written; modelled as returning the written bytes.
`byte(i >> k)` is modelled as `i / 2^k % 256`. -/
def writeInt (i : Nat) : List Nat :=
  if i < 256 then
    [i % 256]
  else if i < 65536 then
    [i / 256 % 256, i % 256]
  else if i < 16777216 then
    [i / 65536 % 256, i / 256 % 256, i % 256]
  else if i < 4294967296 then
    [i / 16777216 % 256, i / 65536 % 256, i / 256 % 256, i % 256]
  else if i < 1099511627776 then
    [i / 4294967296 % 256, i / 16777216 % 256, i / 65536 % 256, i / 256 % 256,
      i % 256]
  else if i < 281474976710656 then
    [i / 1099511627776 % 256, i / 4294967296 % 256, i / 16777216 % 256,
      i / 65536 % 256, i / 256 % 256, i % 256]
  else if i < 72057594037927936 then
    [i / 281474976710656 % 256, i / 1099511627776 % 256, i / 4294967296 % 256,
      i / 16777216 % 256, i / 65536 % 256, i / 256 % 256, i % 256]
  else
    [i / 72057594037927936 % 256, i / 281474976710656 % 256,
      i / 1099511627776 % 256, i / 4294967296 % 256, i / 16777216 % 256,
      i / 65536 % 256, i / 256 % 256, i % 256]

/-- Model of `readInt` (rlp.go): reads a `length`-byte big-endian integer from the
start of `data`.  Fails with UnexpectedEndOfData when `data` is shorter than
`length` and with TooLarge when `length > 8`.  Go's shifted bitwise ors are
written as sums of byte values times powers of 256 (exact for bytes). -/
def readInt (data : List Nat) (length : Nat) : Except Err Nat :=
  if data.length < length then .error .unexpectedEndOfData
  else
    match length with
    | 0 => .ok 0
    | 1 => .ok (data.getD 0 0)
    | 2 => .ok (data.getD 0 0 * 256 + data.getD 1 0)
    | 3 => .ok (data.getD 0 0 * 65536 + data.getD 1 0 * 256 + data.getD 2 0)
    | 4 => .ok (data.getD 0 0 * 16777216 + data.getD 1 0 * 65536 +
        data.getD 2 0 * 256 + data.getD 3 0)
    | 5 => .ok (data.getD 0 0 * 4294967296 + data.getD 1 0 * 16777216 +
        data.getD 2 0 * 65536 + data.getD 3 0 * 256 + data.getD 4 0)
    | 6 => .ok (data.getD 0 0 * 1099511627776 + data.getD 1 0 * 4294967296 +
        data.getD 2 0 * 16777216 + data.getD 3 0 * 65536 +
        data.getD 4 0 * 256 + data.getD 5 0)
    | 7 => .ok (data.getD 0 0 * 281474976710656 +
        data.getD 1 0 * 1099511627776 + data.getD 2 0 * 4294967296 +
        data.getD 3 0 * 16777216 + data.getD 4 0 * 65536 +
        data.getD 5 0 * 256 + data.getD 6 0)
    | 8 => .ok (data.getD 0 0 * 72057594037927936 +
        data.getD 1 0 * 281474976710656 + data.getD 2 0 * 1099511627776 +
        data.getD 3 0 * 4294967296 + data.getD 4 0 * 16777216 +
        data.getD 5 0 * 65536 + data.getD 6 0 * 256 + data.getD 7 0)
    | _ => .error .tooLarge

/-- Model of `encodePrefix` (rlp.go): encodes the framing token for an item of the
given payload `length` and family `offset`.  Byte arithmetic on the token is
modelled with `% 256`.  (For `length ≥ 2^56` the Go code would overrun its
8-byte scratch buffer; that input is unreachable from in-memory data and is
modelled as the TooLarge error the guard was written for.) -/
def encodePrefix (length : Nat) (offset : Nat) : Except Err (List Nat) :=
  if length ≤ 55 then
    .ok [(offset + length) % 256]
  else
    let bytes := writeInt length
    if 8 ≤ bytes.length then .error .tooLarge
    else .ok ((offset + bytes.length + 55) % 256 :: bytes)

/-- The `switch` body of `decodePrefix` (rlp.go, lines 548-606): dispatch on
the first byte, returning `(offset, dataLen, prefixLen)`. -/
def decodePrefixCore : List Nat → Except Err (Nat × Nat × Nat)
  | [] => .error .unexpectedEndOfData
  | cur :: rest =>
    if cur ≤ singleByteMax then
      .ok (stringOffset, 1, 0)
    else if cur ≤ shortStringMax then
      .ok (stringOffset, cur - stringOffset, 1)
    else if cur ≤ longStringMax then
      match readInt rest (cur - shortStringMax) with
      | .error e => .error e
      | .ok dataLen =>
        if 8 ≤ cur - shortStringMax then .error .tooLarge
        else .ok (stringOffset, dataLen, 1 + (cur - shortStringMax))
    else if cur ≤ shortListMax then
      .ok (listOffset, cur - listOffset, 1)
    else
      match readInt rest (cur - shortListMax) with
      | .error e => .error e
      | .ok dataLen =>
        if 8 ≤ cur - shortListMax then .error .tooLarge
        else .ok (listOffset, dataLen, 1 + (cur - shortListMax))

/-- Model of `decodePrefix` (rlp.go): the switch above followed by the final
`dataLen + prefixLen >= math.MaxInt` overflow check. -/
def decodePrefix (p : List Nat) : Except Err (Nat × Nat × Nat) :=
  match decodePrefixCore p with
  | .error e => .error e
  | .ok (offset, dataLen, pLen) =>
    if maxInt ≤ dataLen + pLen then .error .tooLarge
    else .ok (offset, dataLen, pLen)

/-- Model of `encodeBytes` (rlp.go): encodes a byte slice as an RLP string item. -/
def encodeBytes (src : List Nat) : Except Err (List Nat) :=
  if src.length = 0 then
    .ok [stringOffset]
  else if src.length = 1 ∧ src.getD 0 0 < stringOffset then
    .ok [src.getD 0 0]
  else
    match encodePrefix src.length stringOffset with
    | .error e => .error e
    | .ok p => .ok (p ++ src)

/-- Model of `decodeBytes` (rlp.go): decodes an RLP string item, returning the
payload slice and the number of bytes consumed. -/
def decodeBytes : List Nat → Except Err (List Nat × Nat)
  | [] => .error .unexpectedEndOfData
  | b :: tl =>
    if b = stringOffset then .ok ([], 1)
    else if b < stringOffset then .ok ((b :: tl).take 1, 1)
    else
      match decodePrefix (b :: tl) with
      | .error e => .error e
      | .ok (offset, dataLen, pLen) =>
        if offset ≠ stringOffset then .error .unsupportedType
        else if (b :: tl).length < dataLen + pLen then
          .error .unexpectedEndOfData
        else .ok (((b :: tl).take (dataLen + pLen)).drop pLen,
          dataLen + pLen)

/-- Model of `encodeUint` (rlp.go): zero maps to the empty-string encoding, any other
value runs its minimal big-endian bytes through encodeBytes. -/
def encodeUint (src : Nat) : Except Err (List Nat) :=
  if src = 0 then .ok [stringOffset]
  else encodeBytes (writeInt src)

/-- Model of `decodeUint` (rlp.go): string-decodes, then reads the payload as a
big-endian integer.  Go passes `uint8(len(b))`, a conversion that truncates
modulo 256; this is modelled as `b.length % 256`. -/
def decodeUint (src : List Nat) : Except Err (Nat × Nat) :=
  match decodeBytes src with
  | .error e => .error e
  | .ok (b, i) =>
    match readInt b (b.length % 256) with
    | .error e => .error e
    | .ok n => .ok (n, i)

/-- Model of `RLP.DecodeRLP` (raw view file): lazy decode.  Parses only the prefix,
checks the buffer covers the declared span and keeps that span as the raw
view, without looking at the interior. -/
def RLP.decodeRLP (data : List Nat) : Except Err (List Nat × Nat) :=
  match decodePrefix data with
  | .error e => .error e
  | .ok (_, dataLen, pLen) =>
    let totalLen := dataLen + pLen
    if data.length < totalLen then .error .unexpectedEndOfData
    else .ok (data.take totalLen, totalLen)

/-- Slot selection in the `decodeTypedList` loop: reuse the n-th existing
destination slot when present, otherwise the freshly constructed item. -/
def listSlot {α : Type _} (dst : List α) (n : Nat) (newItem : α) : α :=
  if h : n < dst.length then dst.get ⟨n, h⟩ else newItem

/-- Slot writeback in the `decodeTypedList` loop: in-place update of the
n-th slot when it exists, otherwise append the new item. -/
def listStore {α : Type _} (dst : List α) (n : Nat) (slot : α) : List α :=
  if n < dst.length then dst.set n slot else dst ++ [slot]

/-- The `for` loop of `decodeTypedList` (rlp.go, lines 427-459): walk the
payload window, decoding each item into the reused-or-new slot; a reported
item length of zero or one exceeding the window is UnexpectedEndOfData. -/
def decodeListLoop {α : Type _} (dec : α → List Nat → Except Err (α × Nat))
    (newItem : α) (dst : List α) (n : Nat) (src : List Nat) :
    Except Err (List α) :=
  if hsrc : src = [] then .ok dst
  else
    match dec (listSlot dst n newItem) src with
    | .error e => .error e
    | .ok (slot, itemLen) =>
      if src.length < itemLen ∨ itemLen = 0 then .error .unexpectedEndOfData
      else decodeListLoop dec newItem (listStore dst n slot) (n + 1)
        (src.drop itemLen)
termination_by src.length
decreasing_by
  rename_i hcond
  rw [not_or] at hcond
  have hpos : 0 < src.length := List.length_pos.mpr hsrc
  simp only [List.length_drop]
  omega

/-- The loop counter of `decodeListLoop`: replays exactly the same
iteration structure (same emptiness test, same per-item decode, same
zero/over-length check) and returns the final value of the counter `n` —
that is, starting from 0, the number of items the loop decodes.  This is a
specification instrument for stating which destination slots the loop
touches; it adds no behaviour of its own. -/
def decodeListCount {α : Type _} (dec : α → List Nat → Except Err (α × Nat))
    (newItem : α) (dst : List α) (n : Nat) (src : List Nat) : Nat :=
  if hsrc : src = [] then n
  else
    match dec (listSlot dst n newItem) src with
    | .error _ => n
    | .ok (slot, itemLen) =>
      if src.length < itemLen ∨ itemLen = 0 then n
      else decodeListCount dec newItem (listStore dst n slot) (n + 1)
        (src.drop itemLen)
termination_by src.length
decreasing_by
  rename_i hcond
  rw [not_or] at hcond
  have hpos : 0 < src.length := List.length_pos.mpr hsrc
  simp only [List.length_drop]
  omega

/-- Model of `decodeTypedList` (rlp.go): decodes an RLP list item into the
destination sequence `dst`, the per-item decoder being `dec` and the slot
factory `newItem`; returns the final destination and the bytes consumed. -/
def decodeTypedList {α : Type _} (dec : α → List Nat → Except Err (α × Nat))
    (newItem : α) (dst : List α) :
    List Nat → Except Err (List α × Nat)
  | [] => .error .unexpectedEndOfData
  | b :: tl =>
    if b = listOffset then .ok ([], 1)
    else
      match decodePrefix (b :: tl) with
      | .error e => .error e
      | .ok (offset, dataLen, pLen) =>
        if offset ≠ listOffset then .error .unsupportedType
        else if (b :: tl).length < dataLen + pLen then
          .error .unexpectedEndOfData
        else
          match decodeListLoop dec newItem dst 0
            (((b :: tl).take (dataLen + pLen)).drop pLen) with
          | .error e => .error e
          | .ok dst2 => .ok (dst2, dataLen + pLen)

example : encodeBytes [0x64, 0x6f, 0x67] = .ok [0x83, 0x64, 0x6f, 0x67] := rfl

example : decodeBytes [0x83, 0x64, 0x6f, 0x67] = .ok ([0x64, 0x6f, 0x67], 4) := rfl

example : encodeUint 256 = .ok [0x82, 0x01, 0x00] := rfl

example : decodeUint [0x82, 0x01, 0x00] = .ok (256, 3) := rfl

example : decodePrefix [0xbf] = .error .unexpectedEndOfData := rfl

example : RLP.decodeRLP [0xc3, 0xff, 0xff, 0xff, 0x00] =
    .ok ([0xc3, 0xff, 0xff, 0xff], 4) := rfl

example : decodeListLoop
    (fun (_ : Nat) (l : List Nat) =>
      (.ok (l.headD 0, 1) : Except Err (Nat × Nat)))
    0 [10, 20, 30] 0 [0x05, 0x06] = .ok [0x05, 0x06, 30] := by
  rw [decodeListLoop, dif_neg (by simp)]
  norm_num [listSlot, listStore]
  rw [decodeListLoop, dif_neg (by simp)]
  norm_num [listSlot, listStore]
  rw [decodeListLoop, dif_pos rfl]

example : decodeListCount
    (fun (_ : Nat) (l : List Nat) =>
      (.ok (l.headD 0, 1) : Except Err (Nat × Nat)))
    0 [10, 20, 30] 0 [0x05, 0x06] = 2 := by
  rw [decodeListCount, dif_neg (by simp)]
  norm_num [listSlot, listStore]
  rw [decodeListCount, dif_neg (by simp)]
  norm_num [listSlot, listStore]
  rw [decodeListCount, dif_pos rfl]

example : decodeTypedList
    (fun (_ : Nat) (l : List Nat) =>
      (.ok (l.headD 0, 1) : Except Err (Nat × Nat)))
    0 [10, 20, 30] [0xc2, 0x05, 0x06] = .ok ([0x05, 0x06, 30], 3) := by
  simp only [decodeTypedList]
  rw [if_neg (show ¬ (0xc2 : Nat) = listOffset by unfold listOffset; omega),
    show decodePrefix [0xc2, 0x05, 0x06] = .ok (0xc0, 2, 1) from rfl]
  dsimp only
  rw [if_neg (by simp [listOffset]), if_neg (by simp),
    show ((([0xc2, 0x05, 0x06] : List Nat).take (2 + 1)).drop 1)
      = [0x05, 0x06] from rfl]
  rw [decodeListLoop, dif_neg (by simp)]
  norm_num [listSlot, listStore]
  rw [decodeListLoop, dif_neg (by simp)]
  norm_num [listSlot, listStore]
  rw [decodeListLoop, dif_pos rfl]


/-! ### Basic facts about readInt and decodePrefix -/

theorem readInt_eod (data : List Nat) (length : Nat)
    (h : data.length < length) :
    readInt data length = .error .unexpectedEndOfData := by
  unfold readInt
  rw [if_pos h]

theorem readInt_isOk (data : List Nat) (length : Nat)
    (h1 : length ≤ data.length) (h2 : length ≤ 8) :
    ∃ v, readInt data length = .ok v := by
  unfold readInt
  rw [if_neg (by omega)]
  interval_cases length <;> exact ⟨_, rfl⟩

theorem core_longString (b0 : Nat) (rest : List Nat)
    (h1 : 0xb7 < b0) (h2 : b0 ≤ 0xbf) :
    decodePrefixCore (b0 :: rest) =
      match readInt rest (b0 - 0xb7) with
      | .error e => .error e
      | .ok dataLen =>
        if 8 ≤ b0 - 0xb7 then .error .tooLarge
        else .ok (0x80, dataLen, 1 + (b0 - 0xb7)) := by
  simp only [decodePrefixCore]
  rw [if_neg (show ¬ b0 ≤ singleByteMax by unfold singleByteMax; omega),
    if_neg (show ¬ b0 ≤ shortStringMax by unfold shortStringMax; omega),
    if_pos (show b0 ≤ longStringMax by unfold longStringMax; omega)]
  simp only [shortStringMax, stringOffset]

theorem core_longList (b0 : Nat) (rest : List Nat)
    (h1 : 0xf7 < b0) :
    decodePrefixCore (b0 :: rest) =
      match readInt rest (b0 - 0xf7) with
      | .error e => .error e
      | .ok dataLen =>
        if 8 ≤ b0 - 0xf7 then .error .tooLarge
        else .ok (0xc0, dataLen, 1 + (b0 - 0xf7)) := by
  simp only [decodePrefixCore]
  rw [if_neg (show ¬ b0 ≤ singleByteMax by unfold singleByteMax; omega),
    if_neg (show ¬ b0 ≤ shortStringMax by unfold shortStringMax; omega),
    if_neg (show ¬ b0 ≤ longStringMax by unfold longStringMax; omega),
    if_neg (show ¬ b0 ≤ shortListMax by unfold shortListMax; omega)]
  simp only [shortListMax, listOffset]

theorem core_shortString (b0 : Nat) (rest : List Nat)
    (h1 : 0x7f < b0) (h2 : b0 ≤ 0xb7) :
    decodePrefixCore (b0 :: rest) = .ok (0x80, b0 - 0x80, 1) := by
  simp only [decodePrefixCore]
  rw [if_neg (show ¬ b0 ≤ singleByteMax by unfold singleByteMax; omega),
    if_pos (show b0 ≤ shortStringMax by unfold shortStringMax; omega)]
  simp only [stringOffset]

theorem core_shortList (b0 : Nat) (rest : List Nat)
    (h1 : 0xbf < b0) (h2 : b0 ≤ 0xf7) :
    decodePrefixCore (b0 :: rest) = .ok (0xc0, b0 - 0xc0, 1) := by
  simp only [decodePrefixCore]
  rw [if_neg (show ¬ b0 ≤ singleByteMax by unfold singleByteMax; omega),
    if_neg (show ¬ b0 ≤ shortStringMax by unfold shortStringMax; omega),
    if_neg (show ¬ b0 ≤ longStringMax by unfold longStringMax; omega),
    if_pos (show b0 ≤ shortListMax by unfold shortListMax; omega)]
  simp only [listOffset]

theorem decodePrefix_of_core_ok {p : List Nat} {o d l : Nat}
    (h : decodePrefixCore p = .ok (o, d, l)) (hlt : d + l < maxInt) :
    decodePrefix p = .ok (o, d, l) := by
  unfold decodePrefix
  rw [h]
  exact if_neg (by omega)

theorem decodePrefix_of_core_error {p : List Nat} {e : Err}
    (h : decodePrefixCore p = .error e) :
    decodePrefix p = .error e := by
  unfold decodePrefix
  rw [h]

/-! ### writeInt facts and readInt stability -/

theorem writeInt_length_pos (i : Nat) : 1 ≤ (writeInt i).length := by
  unfold writeInt
  split_ifs <;> simp

theorem writeInt_length_le (i : Nat) : (writeInt i).length ≤ 8 := by
  unfold writeInt
  split_ifs <;> simp

theorem writeInt_length_lt8_iff (i : Nat) :
    (writeInt i).length < 8 ↔ i < 2 ^ 56 := by
  unfold writeInt
  split_ifs <;> simp <;> omega

theorem readInt_append (xs ys : List Nat) (length : Nat)
    (h : length ≤ xs.length) :
    readInt (xs ++ ys) length = readInt xs length := by
  unfold readInt
  rw [if_neg (by simp; omega), if_neg (by omega)]
  rcases length with _|_|_|_|_|_|_|_|_|m
  · rfl
  · simp only [List.getD_append _ _ _ _ (show 0 < xs.length by omega)]
  · simp only [List.getD_append _ _ _ _ (show 0 < xs.length by omega),
      List.getD_append _ _ _ _ (show 1 < xs.length by omega)]
  · simp only [List.getD_append _ _ _ _ (show 0 < xs.length by omega),
      List.getD_append _ _ _ _ (show 1 < xs.length by omega),
      List.getD_append _ _ _ _ (show 2 < xs.length by omega)]
  · simp only [List.getD_append _ _ _ _ (show 0 < xs.length by omega),
      List.getD_append _ _ _ _ (show 1 < xs.length by omega),
      List.getD_append _ _ _ _ (show 2 < xs.length by omega),
      List.getD_append _ _ _ _ (show 3 < xs.length by omega)]
  · simp only [List.getD_append _ _ _ _ (show 0 < xs.length by omega),
      List.getD_append _ _ _ _ (show 1 < xs.length by omega),
      List.getD_append _ _ _ _ (show 2 < xs.length by omega),
      List.getD_append _ _ _ _ (show 3 < xs.length by omega),
      List.getD_append _ _ _ _ (show 4 < xs.length by omega)]
  · simp only [List.getD_append _ _ _ _ (show 0 < xs.length by omega),
      List.getD_append _ _ _ _ (show 1 < xs.length by omega),
      List.getD_append _ _ _ _ (show 2 < xs.length by omega),
      List.getD_append _ _ _ _ (show 3 < xs.length by omega),
      List.getD_append _ _ _ _ (show 4 < xs.length by omega),
      List.getD_append _ _ _ _ (show 5 < xs.length by omega)]
  · simp only [List.getD_append _ _ _ _ (show 0 < xs.length by omega),
      List.getD_append _ _ _ _ (show 1 < xs.length by omega),
      List.getD_append _ _ _ _ (show 2 < xs.length by omega),
      List.getD_append _ _ _ _ (show 3 < xs.length by omega),
      List.getD_append _ _ _ _ (show 4 < xs.length by omega),
      List.getD_append _ _ _ _ (show 5 < xs.length by omega),
      List.getD_append _ _ _ _ (show 6 < xs.length by omega)]
  · simp only [List.getD_append _ _ _ _ (show 0 < xs.length by omega),
      List.getD_append _ _ _ _ (show 1 < xs.length by omega),
      List.getD_append _ _ _ _ (show 2 < xs.length by omega),
      List.getD_append _ _ _ _ (show 3 < xs.length by omega),
      List.getD_append _ _ _ _ (show 4 < xs.length by omega),
      List.getD_append _ _ _ _ (show 5 < xs.length by omega),
      List.getD_append _ _ _ _ (show 6 < xs.length by omega),
      List.getD_append _ _ _ _ (show 7 < xs.length by omega)]
  · rfl

theorem readInt_writeInt (i : Nat) (h64 : i < 2 ^ 64) :
    readInt (writeInt i) (writeInt i).length = .ok i := by
  unfold writeInt
  split_ifs with h1 h2 h3 h4 h5 h6 h7 <;>
    · simp [readInt, List.getD]
      omega

theorem readInt_writeInt_append (i : Nat) (rest : List Nat)
    (h64 : i < 2 ^ 64) :
    readInt (writeInt i ++ rest) (writeInt i).length = .ok i := by
  rw [readInt_append _ _ _ (le_refl _)]
  exact readInt_writeInt i h64

/-! ### encodePrefix and decodePrefix on well-formed long and short forms -/

theorem encodePrefix_short (L off : Nat) (hL : L ≤ 55) :
    encodePrefix L off = .ok [(off + L) % 256] := by
  unfold encodePrefix
  rw [if_pos hL]

theorem encodePrefix_long (L off : Nat) (hL : 55 < L) (h56 : L < 2 ^ 56) :
    encodePrefix L off =
      .ok ((off + (writeInt L).length + 55) % 256 :: writeInt L) := by
  unfold encodePrefix
  rw [if_neg (by omega),
    if_neg (by rw [not_le]; exact (writeInt_length_lt8_iff L).mpr h56)]

theorem encodePrefix_long_elim {L off : Nat} {p : List Nat} (hL : 55 < L)
    (h : encodePrefix L off = .ok p) :
    (writeInt L).length < 8 ∧ L < 2 ^ 56 ∧
      p = (off + (writeInt L).length + 55) % 256 :: writeInt L := by
  unfold encodePrefix at h
  rw [if_neg (by omega)] at h
  by_cases h8 : 8 ≤ (writeInt L).length
  · rw [if_pos h8] at h
    exact absurd h (by simp)
  · rw [if_neg h8] at h
    refine ⟨by omega, (writeInt_length_lt8_iff L).mp (by omega), ?_⟩
    exact ((Except.ok.injEq _ _).mp h).symm

theorem decodePrefix_shortString_ok (len : Nat) (rest : List Nat)
    (h1 : 1 ≤ len) (h2 : len ≤ 55) :
    decodePrefix ((0x80 + len) :: rest) = .ok (0x80, len, 1) := by
  have hc := core_shortString (0x80 + len) rest (by omega) (by omega)
  rw [show 0x80 + len - 0x80 = len by omega] at hc
  exact decodePrefix_of_core_ok hc (by unfold maxInt; omega)

theorem decodePrefix_longString_ok (n L : Nat) (rest : List Nat)
    (hn1 : 1 ≤ n) (hn7 : n ≤ 7) (hr : readInt rest n = .ok L)
    (hL56 : L < 2 ^ 56) :
    decodePrefix ((0xb7 + n) :: rest) = .ok (0x80, L, 1 + n) := by
  have hc := core_longString (0xb7 + n) rest (by omega) (by omega)
  rw [show 0xb7 + n - 0xb7 = n by omega, hr] at hc
  simp only [if_neg (show ¬ 8 ≤ n by omega)] at hc
  exact decodePrefix_of_core_ok hc (by unfold maxInt; omega)

theorem decodePrefix_shortList_ok (len : Nat) (rest : List Nat)
    (h1 : 1 ≤ len) (h2 : len ≤ 55) :
    decodePrefix ((0xc0 + len) :: rest) = .ok (0xc0, len, 1) := by
  have hc := core_shortList (0xc0 + len) rest (by omega) (by omega)
  rw [show 0xc0 + len - 0xc0 = len by omega] at hc
  exact decodePrefix_of_core_ok hc (by unfold maxInt; omega)

theorem decodePrefix_longList_ok (n L : Nat) (rest : List Nat)
    (hn1 : 1 ≤ n) (hn7 : n ≤ 7) (hr : readInt rest n = .ok L)
    (hL56 : L < 2 ^ 56) :
    decodePrefix ((0xf7 + n) :: rest) = .ok (0xc0, L, 1 + n) := by
  have hc := core_longList (0xf7 + n) rest (by omega)
  rw [show 0xf7 + n - 0xf7 = n by omega, hr] at hc
  simp only [if_neg (show ¬ 8 ≤ n by omega)] at hc
  exact decodePrefix_of_core_ok hc (by unfold maxInt; omega)

/-! ### decodeBytes and decodeTypedList dispatch lemmas -/

theorem decodeBytes_cons_big (b : Nat) (tl : List Nat) (hb : 0x80 < b) :
    decodeBytes (b :: tl) =
      match decodePrefix (b :: tl) with
      | .error e => .error e
      | .ok (offset, dataLen, pLen) =>
        if offset ≠ 0x80 then .error .unsupportedType
        else if (b :: tl).length < dataLen + pLen then
          .error .unexpectedEndOfData
        else .ok (((b :: tl).take (dataLen + pLen)).drop pLen,
          dataLen + pLen) := by
  simp only [decodeBytes]
  rw [if_neg (show ¬ b = stringOffset by unfold stringOffset; omega),
    if_neg (show ¬ b < stringOffset by unfold stringOffset; omega)]
  simp only [stringOffset]

theorem decodeTypedList_cons_notEmpty {α : Type _}
    (dec : α → List Nat → Except Err (α × Nat)) (newItem : α)
    (dst : List α) (b : Nat) (tl : List Nat) (hb : b ≠ 0xc0) :
    decodeTypedList dec newItem dst (b :: tl) =
      match decodePrefix (b :: tl) with
      | .error e => .error e
      | .ok (offset, dataLen, pLen) =>
        if offset ≠ 0xc0 then .error .unsupportedType
        else if (b :: tl).length < dataLen + pLen then
          .error .unexpectedEndOfData
        else
          match decodeListLoop dec newItem dst 0
            (((b :: tl).take (dataLen + pLen)).drop pLen) with
          | .error e => .error e
          | .ok dst2 => .ok (dst2, dataLen + pLen) := by
  simp only [decodeTypedList]
  rw [if_neg (show ¬ b = listOffset by unfold listOffset; omega)]
  simp only [listOffset]

theorem core_singleByte (b0 : Nat) (rest : List Nat) (h : b0 ≤ 0x7f) :
    decodePrefixCore (b0 :: rest) = .ok (0x80, 1, 0) := by
  simp only [decodePrefixCore]
  rw [if_pos (show b0 ≤ singleByteMax by unfold singleByteMax; omega)]
  simp only [stringOffset]

theorem decodePrefix_ok_inv {p : List Nat} {o d l : Nat}
    (h : decodePrefix p = .ok (o, d, l)) :
    decodePrefixCore p = .ok (o, d, l) ∧ d + l < maxInt := by
  unfold decodePrefix at h
  rcases hc : decodePrefixCore p with e | x <;> rw [hc] at h
  · exact absurd h (by simp)
  · obtain ⟨o2, d2, l2⟩ := x
    dsimp only at h
    by_cases hm : maxInt ≤ d2 + l2
    · rw [if_pos hm] at h
      exact absurd h (by simp)
    · rw [if_neg hm] at h
      obtain ⟨rfl, rfl, rfl⟩ : o2 = o ∧ d2 = d ∧ l2 = l := by
        simpa using h
      exact ⟨rfl, by omega⟩

theorem core_append {p extra : List Nat} {o d l : Nat}
    (h : decodePrefixCore p = .ok (o, d, l)) (hl : l ≤ p.length) :
    decodePrefixCore (p ++ extra) = .ok (o, d, l) := by
  rcases p with _ | ⟨cur, rest⟩
  · exact absurd h (by simp [decodePrefixCore])
  rw [List.cons_append]
  by_cases hc1 : cur ≤ 0x7f
  · rw [core_singleByte cur rest hc1] at h
    rw [core_singleByte cur (rest ++ extra) hc1]
    exact h
  · by_cases hc2 : cur ≤ 0xb7
    · rw [core_shortString cur rest (by omega) hc2] at h
      rw [core_shortString cur (rest ++ extra) (by omega) hc2]
      exact h
    · by_cases hc3 : cur ≤ 0xbf
      · rw [core_longString cur rest (by omega) hc3] at h
        rw [core_longString cur (rest ++ extra) (by omega) hc3]
        rcases hr : readInt rest (cur - 0xb7) with e | dv <;> rw [hr] at h
        · exact absurd h (by simp)
        · dsimp only at h
          by_cases h8 : 8 ≤ cur - 0xb7
          · rw [if_pos h8] at h
            exact absurd h (by simp)
          · rw [if_neg h8] at h
            obtain ⟨rfl, rfl, rfl⟩ :
                0x80 = o ∧ dv = d ∧ 1 + (cur - 0xb7) = l := by
              simpa using h
            rw [readInt_append rest extra (cur - 0xb7) (by simp at hl; omega),
              hr]
            dsimp only
            rw [if_neg h8]
      · by_cases hc4 : cur ≤ 0xf7
        · rw [core_shortList cur rest (by omega) hc4] at h
          rw [core_shortList cur (rest ++ extra) (by omega) hc4]
          exact h
        · rw [core_longList cur rest (by omega)] at h
          rw [core_longList cur (rest ++ extra) (by omega)]
          rcases hr : readInt rest (cur - 0xf7) with e | dv <;> rw [hr] at h
          · exact absurd h (by simp)
          · dsimp only at h
            by_cases h8 : 8 ≤ cur - 0xf7
            · rw [if_pos h8] at h
              exact absurd h (by simp)
            · rw [if_neg h8] at h
              obtain ⟨rfl, rfl, rfl⟩ :
                  0xc0 = o ∧ dv = d ∧ 1 + (cur - 0xf7) = l := by
                simpa using h
              rw [readInt_append rest extra (cur - 0xf7) (by simp at hl; omega),
                hr]
              dsimp only
              rw [if_neg h8]

theorem decodePrefix_append {p extra : List Nat} {o d l : Nat}
    (h : decodePrefix p = .ok (o, d, l)) (hl : l ≤ p.length) :
    decodePrefix (p ++ extra) = .ok (o, d, l) := by
  obtain ⟨hc, hm⟩ := decodePrefix_ok_inv h
  exact decodePrefix_of_core_ok (core_append hc hl) hm

/-! ### Round trip of encodeBytes / decodeBytes with trailing data -/

theorem decodeBytes_encodeBytes_append (s extra : List Nat)
    (h56 : s.length < 2 ^ 56) :
    ∃ e, encodeBytes s = .ok e ∧
      decodeBytes (e ++ extra) = .ok (s, e.length) := by
  by_cases h0 : s.length = 0
  · have hs : s = [] := List.length_eq_zero.mp h0
    subst hs
    refine ⟨[0x80], rfl, ?_⟩
    show decodeBytes (0x80 :: extra) = .ok ([], 1)
    simp only [decodeBytes]
    rw [if_pos (show (0x80 : Nat) = stringOffset from rfl)]
  · by_cases h1 : s.length = 1 ∧ s.getD 0 0 < stringOffset
    · rcases s with _ | ⟨b, tl⟩
      · simp at h0
      obtain ⟨hlen1, hlt⟩ := h1
      have htl : tl = [] := by
        simp only [List.length_cons] at hlen1
        exact List.length_eq_zero.mp (by omega)
      subst htl
      have hb : b < 0x80 := by
        simpa [List.getD, stringOffset] using hlt
      refine ⟨[b], ?_, ?_⟩
      · simp only [encodeBytes]
        rw [if_neg (by simp),
          if_pos ⟨by simp, by simpa [List.getD, stringOffset] using hb⟩]
        simp [List.getD]
      · show decodeBytes (b :: extra) = .ok ([b], 1)
        simp only [decodeBytes]
        rw [if_neg (show ¬ b = stringOffset by unfold stringOffset; omega),
          if_pos (show b < stringOffset by unfold stringOffset; omega)]
        simp
    · have hl1 : 1 ≤ s.length := by omega
      have henc : encodeBytes s =
          match encodePrefix s.length stringOffset with
          | .error e => .error e
          | .ok p => .ok (p ++ s) := by
        simp only [encodeBytes]
        rw [if_neg h0, if_neg h1]
      by_cases hshort : s.length ≤ 55
      · rw [encodePrefix_short s.length stringOffset hshort,
          show (stringOffset + s.length) % 256 = 0x80 + s.length by
            unfold stringOffset; omega] at henc
        dsimp only at henc
        refine ⟨(0x80 + s.length) :: s, by simpa using henc, ?_⟩
        rw [show ((0x80 + s.length) :: s) ++ extra
            = (0x80 + s.length) :: (s ++ extra) from rfl,
          decodeBytes_cons_big _ _ (by omega),
          decodePrefix_shortString_ok s.length (s ++ extra) hl1 hshort]
        dsimp only
        rw [if_neg (by simp), if_neg (by simp)]
        rw [show s.length + 1 = s.length + 1 from rfl]
        simp only [List.take_succ_cons, List.drop_succ_cons, List.drop_zero,
          show (s ++ extra).take s.length = s from List.take_left' rfl,
          List.length_cons]
      · have hlong : 55 < s.length := by omega
        have hn1 : 1 ≤ (writeInt s.length).length := writeInt_length_pos _
        have hn7 : (writeInt s.length).length ≤ 7 := by
          have := (writeInt_length_lt8_iff s.length).mpr h56
          omega
        rw [encodePrefix_long s.length stringOffset hlong h56,
          show (stringOffset + (writeInt s.length).length + 55) % 256
            = 0xb7 + (writeInt s.length).length by
              unfold stringOffset; omega] at henc
        dsimp only at henc
        refine ⟨(0xb7 + (writeInt s.length).length) :: writeInt s.length ++ s,
          by simpa using henc, ?_⟩
        have hre : (((0xb7 + (writeInt s.length).length) ::
              writeInt s.length ++ s)) ++ extra
            = (0xb7 + (writeInt s.length).length) ::
              (writeInt s.length ++ (s ++ extra)) := by
          simp
        rw [hre, decodeBytes_cons_big _ _ (by omega),
          decodePrefix_longString_ok (writeInt s.length).length s.length
            (writeInt s.length ++ (s ++ extra)) hn1 hn7
            (readInt_writeInt_append s.length (s ++ extra) (by omega))
            (by omega)]
        dsimp only
        rw [if_neg (by simp), if_neg (by simp; omega)]
        have htake : ((0xb7 + (writeInt s.length).length) ::
              (writeInt s.length ++ (s ++ extra))).take
              (s.length + (1 + (writeInt s.length).length))
            = (0xb7 + (writeInt s.length).length) ::
              (writeInt s.length ++ s) := by
          rw [show s.length + (1 + (writeInt s.length).length)
              = ((writeInt s.length).length + s.length) + 1 by omega,
            List.take_succ_cons, List.take_append_eq_append_take,
            List.take_of_length_le (by omega),
            show (writeInt s.length).length + s.length
              - (writeInt s.length).length = s.length by omega,
            List.take_left' rfl]
        rw [htake, show 1 + (writeInt s.length).length
            = (writeInt s.length).length + 1 by omega,
          List.drop_succ_cons, List.drop_left' rfl]
        simp only [Except.ok.injEq, Prod.mk.injEq, List.length_cons,
          List.length_append]
        constructor
        · simp
        · omega

/-- Claim C1: for every byte string s (of in-memory size, i.e. fewer than
2^56 bytes), decodeBytes applied to encodeBytes s succeeds, returns a
payload equal to s and consumes exactly the length of the encoding. -/
theorem c1_roundtrip_bytes (s : List Nat) (hbytes : ∀ b ∈ s, b < 256)
    (h56 : s.length < 2 ^ 56) :
    ∃ e, encodeBytes s = .ok e ∧ decodeBytes e = .ok (s, e.length) := by
  obtain ⟨e, he, hd⟩ := decodeBytes_encodeBytes_append s [] h56
  rw [List.append_nil] at hd
  exact ⟨e, he, hd⟩

/-- Witness for C1 at the byte string "dog". -/
theorem c1_roundtrip_bytes_witness :
    (∀ b ∈ [0x64, 0x6f, 0x67], b < 256) ∧
    ([0x64, 0x6f, 0x67] : List Nat).length < 2 ^ 56 ∧
    ∃ e, encodeBytes [0x64, 0x6f, 0x67] = .ok e ∧
      decodeBytes e = .ok ([0x64, 0x6f, 0x67], e.length) :=
  ⟨by decide, by norm_num,
    c1_roundtrip_bytes [0x64, 0x6f, 0x67] (by decide) (by norm_num)⟩

/-- Claim C7: decoding encode(x) ++ extraBytes succeeds, consumes exactly
the length of encode(x) and is unaffected by extraBytes — stated both for
the byte-string codec (encodeBytes/decodeBytes) and for the lazy single-item
decode RLP.DecodeRLP on any well-formed encoding. -/
theorem c7_trailing_data_tolerance (s extra : List Nat)
    (hbytes : ∀ b ∈ s, b < 256) (h56 : s.length < 2 ^ 56) :
    (∃ e, encodeBytes s = .ok e ∧
      decodeBytes (e ++ extra) = .ok (s, e.length)) ∧
    (∀ e2 off dataLen pLen, decodePrefix e2 = .ok (off, dataLen, pLen) →
      e2.length = dataLen + pLen →
      RLP.decodeRLP (e2 ++ extra) = .ok (e2, e2.length)) := by
  refine ⟨decodeBytes_encodeBytes_append s extra h56, ?_⟩
  intro e2 off dataLen pLen hdp hlen
  have happ := @decodePrefix_append e2 extra off dataLen pLen hdp (by omega)
  unfold RLP.decodeRLP
  rw [happ]
  dsimp only
  rw [if_neg (by simp; omega), List.take_left' hlen, ← hlen]

/-- Witness for C7 at x = "dog" with two trailing bytes. -/
theorem c7_trailing_data_tolerance_witness :
    (∀ b ∈ [0x64, 0x6f, 0x67], b < 256) ∧
    ([0x64, 0x6f, 0x67] : List Nat).length < 2 ^ 56 ∧
    ((∃ e, encodeBytes [0x64, 0x6f, 0x67] = .ok e ∧
      decodeBytes (e ++ [0xaa, 0xbb]) = .ok ([0x64, 0x6f, 0x67], e.length)) ∧
    (∀ e2 off dataLen pLen, decodePrefix e2 = .ok (off, dataLen, pLen) →
      e2.length = dataLen + pLen →
      RLP.decodeRLP (e2 ++ [0xaa, 0xbb]) = .ok (e2, e2.length))) :=
  ⟨by decide, by norm_num,
    c7_trailing_data_tolerance [0x64, 0x6f, 0x67] [0xaa, 0xbb] (by decide)
      (by norm_num)⟩

/-! ### Truncated long-form prefixes -/

theorem decodePrefix_take_longString (L : Nat) (payload : List Nat) (k : Nat)
    (h56 : L < 2 ^ 56) (hpay : payload.length = L) (hk1 : 1 ≤ k) :
    (k - 1 < (writeInt L).length →
      decodePrefix (((0xb7 + (writeInt L).length) ::
          (writeInt L ++ payload)).take k) = .error .unexpectedEndOfData) ∧
    ((writeInt L).length ≤ k - 1 →
      decodePrefix (((0xb7 + (writeInt L).length) ::
          (writeInt L ++ payload)).take k) =
        .ok (0x80, L, 1 + (writeInt L).length)) := by
  have hn1 : 1 ≤ (writeInt L).length := writeInt_length_pos _
  have hn7 : (writeInt L).length ≤ 7 := by
    have := (writeInt_length_lt8_iff L).mpr h56
    omega
  rw [show k = (k - 1) + 1 by omega, List.take_succ_cons]
  constructor
  · intro hklt
    apply decodePrefix_of_core_error
    rw [core_longString _ _ (by omega) (by omega),
      show 0xb7 + (writeInt L).length - 0xb7 = (writeInt L).length by omega,
      readInt_eod _ _ (by
        rw [List.length_take]
        simp only [List.length_append]
        omega)]
  · intro hkge
    rw [Nat.add_sub_cancel] at hkge
    rw [List.take_append_eq_append_take, List.take_of_length_le hkge]
    exact decodePrefix_longString_ok _ L _ hn1 hn7
      (readInt_writeInt_append L _ (by omega)) h56

theorem decodePrefix_take_longList (L : Nat) (payload : List Nat) (k : Nat)
    (h56 : L < 2 ^ 56) (hpay : payload.length = L) (hk1 : 1 ≤ k) :
    (k - 1 < (writeInt L).length →
      decodePrefix (((0xf7 + (writeInt L).length) ::
          (writeInt L ++ payload)).take k) = .error .unexpectedEndOfData) ∧
    ((writeInt L).length ≤ k - 1 →
      decodePrefix (((0xf7 + (writeInt L).length) ::
          (writeInt L ++ payload)).take k) =
        .ok (0xc0, L, 1 + (writeInt L).length)) := by
  have hn1 : 1 ≤ (writeInt L).length := writeInt_length_pos _
  have hn7 : (writeInt L).length ≤ 7 := by
    have := (writeInt_length_lt8_iff L).mpr h56
    omega
  rw [show k = (k - 1) + 1 by omega, List.take_succ_cons]
  constructor
  · intro hklt
    apply decodePrefix_of_core_error
    rw [core_longList _ _ (by omega),
      show 0xf7 + (writeInt L).length - 0xf7 = (writeInt L).length by omega,
      readInt_eod _ _ (by
        rw [List.length_take]
        simp only [List.length_append]
        omega)]
  · intro hkge
    rw [Nat.add_sub_cancel] at hkge
    rw [List.take_append_eq_append_take, List.take_of_length_le hkge]
    exact decodePrefix_longList_ok _ L _ hn1 hn7
      (readInt_writeInt_append L _ (by omega)) h56

/-- Claim C5: every proper non-empty prefix of a valid long-form encoding
(payload longer than 55 bytes), for either family, fails to decode with
UnexpectedEndOfData — whether the cut removes payload bytes or
length-of-length bytes. -/
theorem c5_truncation_fails (payload sp lp : List Nat) (k : Nat)
    (hlen : 55 < payload.length)
    (hsp : encodePrefix payload.length stringOffset = .ok sp)
    (hlp : encodePrefix payload.length listOffset = .ok lp)
    (hk1 : 0 < k) :
    (k < (sp ++ payload).length →
      decodeBytes ((sp ++ payload).take k) = .error .unexpectedEndOfData) ∧
    (∀ (α : Type) (dec : α → List Nat → Except Err (α × Nat)) (newItem : α)
      (dst : List α), k < (lp ++ payload).length →
      decodeTypedList dec newItem dst ((lp ++ payload).take k) =
        .error .unexpectedEndOfData) := by
  obtain ⟨hnlt, h56, hspe⟩ := encodePrefix_long_elim hlen hsp
  obtain ⟨-, -, hlpe⟩ := encodePrefix_long_elim hlen hlp
  have hn1 : 1 ≤ (writeInt payload.length).length := writeInt_length_pos _
  rw [show (stringOffset + (writeInt payload.length).length + 55) % 256
      = 0xb7 + (writeInt payload.length).length by
        unfold stringOffset; omega] at hspe
  rw [show (listOffset + (writeInt payload.length).length + 55) % 256
      = 0xf7 + (writeInt payload.length).length by
        unfold listOffset; omega] at hlpe
  subst hspe hlpe
  constructor
  · intro hk
    rw [List.cons_append] at hk ⊢
    simp only [List.length_cons, List.length_append] at hk
    have hgrab := decodePrefix_take_longString payload.length payload k h56
      rfl (by omega)
    rw [show k = (k - 1) + 1 by omega, List.take_succ_cons] at hgrab ⊢
    by_cases hcase : k - 1 < (writeInt payload.length).length
    · rw [decodeBytes_cons_big _ _ (by omega), hgrab.1 hcase]
    · rw [decodeBytes_cons_big _ _ (by omega), hgrab.2 (by omega)]
      dsimp only
      rw [if_neg (by simp), if_pos (by
        simp only [List.length_cons, List.length_take, List.length_append]
        omega)]
  · intro α dec newItem dst hk
    rw [List.cons_append] at hk ⊢
    simp only [List.length_cons, List.length_append] at hk
    have hgrab := decodePrefix_take_longList payload.length payload k h56
      rfl (by omega)
    rw [show k = (k - 1) + 1 by omega, List.take_succ_cons] at hgrab ⊢
    by_cases hcase : k - 1 < (writeInt payload.length).length
    · rw [decodeTypedList_cons_notEmpty dec newItem dst _ _ (by omega),
        hgrab.1 hcase]
    · rw [decodeTypedList_cons_notEmpty dec newItem dst _ _ (by omega),
        hgrab.2 (by omega)]
      dsimp only
      rw [if_neg (by simp), if_pos (by
        simp only [List.length_cons, List.length_take, List.length_append]
        omega)]

/-- Witness for C5: a 56-byte payload, truncated after 30 bytes, for both
the string and the list family. -/
theorem c5_truncation_fails_witness :
    (55 < (List.replicate 56 0x61).length ∧
      encodePrefix (List.replicate 56 0x61).length stringOffset =
        .ok [0xb8, 56] ∧
      encodePrefix (List.replicate 56 0x61).length listOffset =
        .ok [0xf8, 56] ∧ (0 : Nat) < 30) ∧
    (30 < (([0xb8, 56] ++ List.replicate 56 0x61) : List Nat).length →
      decodeBytes ((([0xb8, 56] ++ List.replicate 56 0x61) : List Nat).take 30)
        = .error .unexpectedEndOfData) ∧
    (∀ (α : Type) (dec : α → List Nat → Except Err (α × Nat)) (newItem : α)
      (dst : List α),
      30 < (([0xf8, 56] ++ List.replicate 56 0x61) : List Nat).length →
      decodeTypedList dec newItem dst
          ((([0xf8, 56] ++ List.replicate 56 0x61) : List Nat).take 30) =
        .error .unexpectedEndOfData) :=
  ⟨⟨by simp, by rfl, by rfl, by norm_num⟩,
    c5_truncation_fails (List.replicate 56 0x61) [0xb8, 56] [0xf8, 56] 30
      (by simp) (by rfl) (by rfl) (by norm_num)⟩

/-! ### The decodeTypedList loop: consumption checks and slot preservation -/

/-- Claim C6: inside the decodeTypedList loop, a per-item decode reporting a
consumed count of zero or exceeding the remaining payload makes the whole
decode fail with UnexpectedEndOfData, and a successful iteration proceeds on
a strictly smaller remaining payload. -/
theorem c6_item_consumption_checks {α : Type}
    (dec : α → List Nat → Except Err (α × Nat)) (newItem : α)
    (dst : List α) (n : Nat) (src : List Nat) (slot : α) (itemLen : Nat)
    (hsrc : src ≠ [])
    (hdec : dec (listSlot dst n newItem) src = .ok (slot, itemLen)) :
    ((itemLen = 0 ∨ src.length < itemLen) →
      decodeListLoop dec newItem dst n src = .error .unexpectedEndOfData) ∧
    (itemLen ≠ 0 → itemLen ≤ src.length →
      decodeListLoop dec newItem dst n src =
        decodeListLoop dec newItem (listStore dst n slot) (n + 1)
          (src.drop itemLen) ∧
      (src.drop itemLen).length < src.length) := by
  constructor
  · intro hbad
    rw [decodeListLoop, dif_neg hsrc, hdec]
    dsimp only
    rw [if_pos (by tauto)]
  · intro hne hle
    refine ⟨?_, by
      rw [List.length_drop]
      have := List.length_pos.mpr hsrc
      omega⟩
    conv_lhs => rw [decodeListLoop]
    rw [dif_neg hsrc, hdec]
    dsimp only
    rw [if_neg (by rw [not_or]; exact ⟨by omega, hne⟩)]

/-- Witness for C6 with a decoder that reports zero bytes consumed. -/
theorem c6_item_consumption_checks_witness :
    (([1] : List Nat) ≠ [] ∧
      (fun (s : Nat) (_ : List Nat) => (.ok (s, 0) : Except Err (Nat × Nat)))
        (listSlot [] 0 7) [1] = .ok (7, 0)) ∧
    decodeListLoop
      (fun (s : Nat) (_ : List Nat) => (.ok (s, 0) : Except Err (Nat × Nat)))
      7 [] 0 [1] = .error .unexpectedEndOfData :=
  ⟨⟨by simp, rfl⟩,
    (c6_item_consumption_checks
      (fun (s : Nat) (_ : List Nat) => (.ok (s, 0) : Except Err (Nat × Nat)))
      7 [] 0 [1] 7 0 (by simp) rfl).1 (Or.inl rfl)⟩

theorem listStore_length {α : Type} (dst : List α) (n : Nat) (slot : α)
    (hn : n ≤ dst.length) :
    (listStore dst n slot).length = max dst.length (n + 1) := by
  unfold listStore
  split_ifs with hlt <;> simp <;> omega

theorem listStore_getElem_ne {α : Type} (dst : List α) (n : Nat) (slot : α)
    (k : Nat) (hn : n ≤ dst.length) (hk : k ≠ n) :
    (listStore dst n slot)[k]? = dst[k]? := by
  unfold listStore
  split_ifs with hlt
  · exact List.getElem?_set_ne (by omega)
  · rcases lt_or_ge k dst.length with hkd | hkd
    · rw [List.getElem?_append_left hkd]
    · rw [List.getElem?_eq_none (by simp; omega),
        List.getElem?_eq_none (by omega)]

theorem decodeListCount_ge {α : Type}
    (dec : α → List Nat → Except Err (α × Nat)) (newItem : α) :
    ∀ (fuel : Nat) (src : List Nat), src.length ≤ fuel →
      ∀ (dst : List α) (n : Nat),
        n ≤ decodeListCount dec newItem dst n src := by
  intro fuel
  induction fuel with
  | zero =>
    intro src hfu dst n
    have hnil : src = [] := List.eq_nil_of_length_eq_zero (by omega)
    subst hnil
    rw [decodeListCount, dif_pos rfl]
  | succ fuel ih =>
    intro src hfu dst n
    by_cases hsrc : src = []
    · subst hsrc
      rw [decodeListCount, dif_pos rfl]
    · rw [decodeListCount, dif_neg hsrc]
      rcases hdec : dec (listSlot dst n newItem) src with e | x
      · dsimp only
        exact le_rfl
      · obtain ⟨slot, itemLen⟩ := x
        dsimp only
        by_cases hcond : src.length < itemLen ∨ itemLen = 0
        · rw [if_pos hcond]
        · rw [if_neg hcond]
          rw [not_or] at hcond
          have hpos := List.length_pos.mpr hsrc
          have hrec := ih (src.drop itemLen)
            (by rw [List.length_drop]; omega) (listStore dst n slot) (n + 1)
          omega

theorem decodeListLoop_preserves_aux {α : Type}
    (dec : α → List Nat → Except Err (α × Nat)) (newItem : α) :
    ∀ (fuel : Nat) (src : List Nat), src.length ≤ fuel →
      ∀ (dst : List α) (n : Nat) (dst2 : List α), n ≤ dst.length →
        decodeListLoop dec newItem dst n src = .ok dst2 →
        dst2.length = max dst.length (decodeListCount dec newItem dst n src) ∧
        ∀ k, (k < n ∨ decodeListCount dec newItem dst n src ≤ k) →
          dst2[k]? = dst[k]? := by
  intro fuel
  induction fuel with
  | zero =>
    intro src hfu dst n dst2 hn h
    have hnil : src = [] := List.eq_nil_of_length_eq_zero (by omega)
    subst hnil
    rw [decodeListLoop, dif_pos rfl] at h
    obtain rfl : dst = dst2 := by simpa using h
    rw [decodeListCount, dif_pos rfl]
    exact ⟨by omega, fun k _ => rfl⟩
  | succ fuel ih =>
    intro src hfu dst n dst2 hn h
    by_cases hsrc : src = []
    · subst hsrc
      rw [decodeListLoop, dif_pos rfl] at h
      obtain rfl : dst = dst2 := by simpa using h
      rw [decodeListCount, dif_pos rfl]
      exact ⟨by omega, fun k _ => rfl⟩
    · rw [decodeListLoop, dif_neg hsrc] at h
      rcases hdec : dec (listSlot dst n newItem) src with e | x <;>
        rw [hdec] at h
      · exact absurd h (by simp)
      · obtain ⟨slot, itemLen⟩ := x
        dsimp only at h
        by_cases hcond : src.length < itemLen ∨ itemLen = 0
        · rw [if_pos hcond] at h
          exact absurd h (by simp)
        · rw [if_neg hcond] at h
          rw [decodeListCount, dif_neg hsrc, hdec]
          dsimp only
          rw [if_neg hcond]
          rw [not_or] at hcond
          have hpos := List.length_pos.mpr hsrc
          have hfu2 : (src.drop itemLen).length ≤ fuel := by
            rw [List.length_drop]
            omega
          have hn2 : n + 1 ≤ (listStore dst n slot).length := by
            unfold listStore
            split_ifs with hlt
            · simp
              omega
            · simp
              omega
          have hge : n + 1 ≤ decodeListCount dec newItem
              (listStore dst n slot) (n + 1) (src.drop itemLen) :=
            decodeListCount_ge dec newItem fuel (src.drop itemLen) hfu2 _ _
          obtain ⟨hml, hmp⟩ := ih (src.drop itemLen) hfu2
            (listStore dst n slot) (n + 1) dst2 hn2 h
          constructor
          · rw [hml, listStore_length dst n slot hn]
            omega
          · intro k hk
            rw [hmp k (by omega)]
            exact listStore_getElem_ne dst n slot k hn (by omega)

theorem decodeListLoop_preserves {α : Type}
    (dec : α → List Nat → Except Err (α × Nat)) (newItem : α)
    (src : List Nat) (dst : List α) (n : Nat) (dst2 : List α)
    (hn : n ≤ dst.length)
    (h : decodeListLoop dec newItem dst n src = .ok dst2) :
    dst2.length = max dst.length (decodeListCount dec newItem dst n src) ∧
    ∀ k, (k < n ∨ decodeListCount dec newItem dst n src ≤ k) →
      dst2[k]? = dst[k]? :=
  decodeListLoop_preserves_aux dec newItem src.length src (le_refl _)
    dst n dst2 hn h

/-- Claim C10: decoding the empty-list encoding [0xC0] into a pre-populated
destination resets it to the empty sequence and consumes 1 byte; for any
other successfully decoded list, with m the number of items the loop decoded
(the final loop counter, `decodeListCount` over the framed payload window),
the destination has length max(previous length, m) and every slot at
position m and beyond is left unchanged in place — so a payload with fewer
items than the destination has slots leaves the surplus slots untouched. -/
theorem c10_list_destination {α : Type}
    (dec : α → List Nat → Except Err (α × Nat)) (newItem : α)
    (dst : List α) (hdst : 1 ≤ dst.length) :
    decodeTypedList dec newItem dst [0xc0] = .ok ([], 1) ∧
    (∀ (src : List Nat) (dst2 : List α) (total off dataLen pLen : Nat),
      src.head? ≠ some 0xc0 →
      decodeTypedList dec newItem dst src = .ok (dst2, total) →
      decodePrefix src = .ok (off, dataLen, pLen) →
      dst2.length = max dst.length
        (decodeListCount dec newItem dst 0
          ((src.take (dataLen + pLen)).drop pLen)) ∧
      ∀ k, decodeListCount dec newItem dst 0
          ((src.take (dataLen + pLen)).drop pLen) ≤ k →
        dst2[k]? = dst[k]?) := by
  constructor
  · simp only [decodeTypedList]
    rw [if_pos (show (0xc0 : Nat) = listOffset from rfl)]
  · intro src dst2 total off dataLen pLen hhead h hdp
    rcases src with _ | ⟨b, tl⟩
    · exact absurd h (by simp [decodeTypedList])
    · have hb : b ≠ 0xc0 := by simpa using hhead
      rw [decodeTypedList_cons_notEmpty dec newItem dst b tl hb, hdp] at h
      dsimp only at h
      by_cases hoff : off ≠ 0xc0
      · rw [if_pos hoff] at h
        exact absurd h (by simp)
      · rw [if_neg hoff] at h
        by_cases hlen : (b :: tl).length < dataLen + pLen
        · rw [if_pos hlen] at h
          exact absurd h (by simp)
        · rw [if_neg hlen] at h
          rcases hloop : decodeListLoop dec newItem dst 0
              (((b :: tl).take (dataLen + pLen)).drop pLen) with e | dstf <;>
            rw [hloop] at h
          · exact absurd h (by simp)
          · dsimp only at h
            obtain ⟨rfl, rfl⟩ : dstf = dst2 ∧ dataLen + pLen = total := by
              simpa using h
            obtain ⟨hml, hmp⟩ := decodeListLoop_preserves dec newItem _
              dst 0 dstf (by omega) hloop
            exact ⟨hml, fun k hk => hmp k (Or.inr hk)⟩

/-- Witness for C10: a two-slot destination and the empty-list encoding. -/
theorem c10_list_destination_witness :
    1 ≤ ([10, 20] : List Nat).length ∧
    decodeTypedList
      (fun (s : Nat) (_ : List Nat) => (.ok (s, 1) : Except Err (Nat × Nat)))
      0 [10, 20] [0xc0] = .ok ([], 1) :=
  ⟨by simp,
    (c10_list_destination
      (fun (s : Nat) (_ : List Nat) => (.ok (s, 1) : Except Err (Nat × Nat)))
      0 [10, 20] (by simp)).1⟩

/-! ### Claim theorems: C8, C2, C4, C3, C9 -/

/-- Claim C8: encoding the unsigned integer 0 yields exactly the single byte
0x80, and decoding the single byte 0x80 as an unsigned integer succeeds with
value 0 and consumes 1 byte. -/
theorem c8_zero_integer_convention :
    encodeUint 0 = .ok [0x80] ∧ decodeUint [0x80] = .ok (0, 1) :=
  ⟨rfl, rfl⟩

set_option maxRecDepth 4096 in
/-- Claim C2 (code bug): decodeUint passes the payload width through a
uint8 conversion, so a 256-byte payload is read with width 256 % 256 = 0
and decoding succeeds with value 0 instead of failing with TooLarge.  The
buffer below is a well-formed RLP string with a 256-byte payload. -/
theorem c2_decodeUint_truncation_bug :
    decodeUint (0xb9 :: 0x01 :: 0x00 :: List.replicate 256 0x61) =
      .ok (0, 259) ∧
    (∃ payload,
      decodeBytes (0xb9 :: 0x01 :: 0x00 :: List.replicate 256 0x61) =
        .ok (payload, 259) ∧ payload.length = 256) := by
  refine ⟨by rfl, List.replicate 256 0x61, by rfl, by simp⟩

/-- Claim C4 (counterexample): a long-string token with n = 8 but a buffer
too short to hold the length bytes fails with UnexpectedEndOfData, not with
TooLarge as the claim states, because decodePrefix runs readInt before the
n ≥ 8 check. -/
theorem c4_counterexample :
    decodePrefix [0xbf] = .error .unexpectedEndOfData ∧
    Err.unexpectedEndOfData ≠ Err.tooLarge :=
  ⟨rfl, by decide⟩

/-- Claim C4 (amended): for a long-form String token with n = buf[0] - 0xB7,
if the buffer holds fewer than n length bytes after the token decodePrefix
fails with UnexpectedEndOfData (whatever n is); if at least n length bytes
are present and n ≥ 8 it fails with TooLarge. -/
theorem c4_long_string_checks (b0 : Nat) (rest : List Nat)
    (h1 : 0xb8 ≤ b0) (h2 : b0 ≤ 0xbf) :
    (8 ≤ b0 - 0xb7 → b0 - 0xb7 ≤ rest.length →
      decodePrefix (b0 :: rest) = .error .tooLarge) ∧
    (rest.length < b0 - 0xb7 →
      decodePrefix (b0 :: rest) = .error .unexpectedEndOfData) := by
  constructor
  · intro hn hlen
    obtain ⟨v, hv⟩ := readInt_isOk rest (b0 - 0xb7) hlen (by omega)
    apply decodePrefix_of_core_error
    rw [core_longString b0 rest (by omega) h2, hv]
    simp only [if_pos hn]
  · intro hlen
    apply decodePrefix_of_core_error
    rw [core_longString b0 rest (by omega) h2, readInt_eod rest _ hlen]

/-- Witness for C4's amended theorem at the concrete token 0xBF. -/
theorem c4_long_string_checks_witness :
    (0xb8 ≤ 0xbf ∧ 0xbf ≤ 0xbf) ∧
    decodePrefix (0xbf :: List.replicate 8 0x01) = .error .tooLarge ∧
    decodePrefix [0xbf] = .error .unexpectedEndOfData :=
  ⟨⟨by decide, by decide⟩,
    (c4_long_string_checks 0xbf (List.replicate 8 0x01) (by decide)
      (by decide)).1 (by decide) (by simp),
    (c4_long_string_checks 0xbf [] (by decide) (by decide)).2 (by decide)⟩

/-- Claim C3 (counterexample): writeInt applied to 0 produces the single
byte 0x00 — a one-byte sequence whose leading byte is zero — not the
zero-length sequence the claim states. -/
theorem c3_counterexample :
    writeInt 0 = [0] ∧ (writeInt 0).length = 1 ∧
    (writeInt 0).getD 0 0 = 0 :=
  ⟨rfl, rfl, rfl⟩

/-- Claim C3 (amended): for every nonzero v < 2^64, writeInt produces the
shortest big-endian byte sequence representing v — between 1 and 8 bytes,
reading back (via readInt) to v, with a nonzero leading byte and with
256^(len-1) ≤ v < 256^len; v = 0 yields the single byte 0x00, and the
zero-to-empty-sequence convention is implemented by encodeUint, which
returns the empty-string encoding 0x80 for 0 without calling writeInt. -/
theorem c3_writeInt_minimal (i : Nat) (h64 : i < 2 ^ 64) :
    (i = 0 → writeInt i = [0]) ∧
    (i ≠ 0 →
      1 ≤ (writeInt i).length ∧ (writeInt i).length ≤ 8 ∧
      readInt (writeInt i) (writeInt i).length = .ok i ∧
      (writeInt i).getD 0 0 ≠ 0 ∧
      256 ^ ((writeInt i).length - 1) ≤ i ∧
      i < 256 ^ (writeInt i).length) ∧
    encodeUint 0 = .ok [stringOffset] := by
  refine ⟨?_, ?_, rfl⟩
  · rintro rfl
    rfl
  · intro hne
    unfold writeInt
    split_ifs with h1 h2 h3 h4 h5 h6 h7 <;>
      refine ⟨by simp, by simp, by simp [readInt, List.getD]; omega,
        by simp [List.getD]; omega, by norm_num; omega, by norm_num; omega⟩

/-- Witness for C3's amended theorem at v = 256. -/
theorem c3_writeInt_minimal_witness :
    (256 : Nat) < 2 ^ 64 ∧
    ((256 : Nat) ≠ 0 →
      1 ≤ (writeInt 256).length ∧ (writeInt 256).length ≤ 8 ∧
      readInt (writeInt 256) (writeInt 256).length = .ok 256 ∧
      (writeInt 256).getD 0 0 ≠ 0 ∧
      256 ^ ((writeInt 256).length - 1) ≤ 256 ∧
      (256 : Nat) < 256 ^ (writeInt 256).length) :=
  ⟨by norm_num, (c3_writeInt_minimal 256 (by norm_num)).2.1⟩

/-- Claim C9: whenever the leading prefix of a buffer decodes successfully
and the buffer holds the declared span, the lazy decode RLP.DecodeRLP
succeeds, consumes prefixLen + dataLen bytes and keeps exactly that span as
the view, without validating the interior. -/
theorem c9_lazy_decode (buf : List Nat) (off dataLen pLen : Nat)
    (h : decodePrefix buf = .ok (off, dataLen, pLen))
    (hlen : pLen + dataLen ≤ buf.length) :
    RLP.decodeRLP buf = .ok (buf.take (pLen + dataLen), pLen + dataLen) := by
  unfold RLP.decodeRLP
  rw [h]
  simp only
  rw [if_neg (by omega), Nat.add_comm dataLen pLen]

/-- Witness for C9 at a list token whose interior bytes are not themselves
well-formed RLP items. -/
theorem c9_lazy_decode_witness :
    decodePrefix [0xc3, 0xff, 0xff, 0xff] = .ok (0xc0, 3, 1) ∧
    1 + 3 ≤ [0xc3, 0xff, 0xff, 0xff].length ∧
    RLP.decodeRLP [0xc3, 0xff, 0xff, 0xff] =
      .ok ([0xc3, 0xff, 0xff, 0xff].take (1 + 3), 1 + 3) :=
  ⟨rfl, by simp,
    c9_lazy_decode [0xc3, 0xff, 0xff, 0xff] 0xc0 3 1 rfl (by simp)⟩

end GoRLP
